import Mathlib

/-!
Verification of the SPSC queue header (LockFreeQueue.h).

The header defines three class templates:
  * LockFreeQueue<T, size>          — bounded ring buffer, indices modulo (size + 1);
  * UnboundedLockFreeQueue<T, size> — chain of fixed-capacity memory blocks with a
    one-shot stop flag;
  * MutexedQueue<T, size>           — the same ring buffer protected by a mutex.

Each class is embedded as a pure state-transition function: member functions
`push`/`pop` become Lean functions from the queue state to a result paired with the
successor state.  The atomic loads/stores of the C++ code only matter for
cross-thread visibility; viewed as a sequential state machine (the granularity at
which the functional claims are stated) each member function is the straight-line
code of the source.  `pop`'s out-parameter is rendered as an `Option T` result:
`some v` models `return true` with `elem = v`, `none` models `return false`.
-/

set_option autoImplicit false

universe u

/-- State of `LockFreeQueue<T, size>` (LockFreeQueue.h lines 5-49).
`capacity` is the member initialised to `size + 1`; `reader` and `writer` are the
two atomic indices; `data` models the backing array `T data[size + 1]`. -/
structure LockFreeQueue (T : Type u) where
  capacity : Nat
  reader : Nat
  writer : Nat
  data : List T
deriving DecidableEq

/-- The freshly constructed `LockFreeQueue<T, size>` (constructor, lines 15-19):
`reader = writer = 0`, `capacity = size + 1`.  The C++ array contents start
unspecified; they are modelled as `default`, and no claim depends on them. -/
def LockFreeQueue.init (T : Type u) [Inhabited T] (size : Nat) : LockFreeQueue T :=
  { capacity := size + 1, reader := 0, writer := 0,
    data := List.replicate (size + 1) default }

/-- `LockFreeQueue::push` (lines 21-33): read the writer index, compute
`next_pos = (wr_pos + 1) % capacity`; if it equals the reader index the buffer is
full, return `false` with no mutation; otherwise store `elem` at `wr_pos` and
publish `next_pos` as the new writer index. -/
def LockFreeQueue.push {T : Type u} (q : LockFreeQueue T) (elem : T) :
    Bool × LockFreeQueue T :=
  let wr_pos := q.writer
  let next_pos := (wr_pos + 1) % q.capacity
  if next_pos = q.reader then
    (false, q)
  else
    (true, { q with data := q.data.set wr_pos elem, writer := next_pos })

/-- `LockFreeQueue::pop` (lines 35-48): read the reader index; if it equals the
writer index the buffer is empty, return `false` with no mutation; otherwise read
the slot at `rd_pos` and publish `(rd_pos + 1) % capacity` as the new reader
index. -/
def LockFreeQueue.pop {T : Type u} [Inhabited T] (q : LockFreeQueue T) :
    Option T × LockFreeQueue T :=
  let rd_pos := q.reader
  if rd_pos = q.writer then
    (none, q)
  else
    (some (q.data.getD rd_pos default),
     { q with reader := (rd_pos + 1) % q.capacity })

/-- Run a sequence of `push` calls, collecting the returned flags. -/
def LockFreeQueue.pushSeq {T : Type u} (q : LockFreeQueue T) :
    List T → List Bool × LockFreeQueue T
  | [] => ([], q)
  | v :: vs =>
    let r := q.push v
    let rest := r.2.pushSeq vs
    (r.1 :: rest.1, rest.2)

/-- Run `n` consecutive `pop` calls, collecting the returned values. -/
def LockFreeQueue.popSeq {T : Type u} [Inhabited T] (q : LockFreeQueue T) :
    Nat → List (Option T) × LockFreeQueue T
  | 0 => ([], q)
  | n + 1 =>
    let r := q.pop
    let rest := r.2.popSeq n
    (r.1 :: rest.1, rest.2)

/-- C2.  For `LockFreeQueue<T,3>` starting empty, three pushes each return `true`,
and a fourth push returns `false` and leaves the queue state — the stored values
and both indices — exactly unchanged. -/
theorem lockFreeQueue_capacity_three_fourth_push_fails (T : Type u) [Inhabited T]
    (v1 v2 v3 v4 : T) :
    ((LockFreeQueue.init T 3).pushSeq [v1, v2, v3]).1 = [true, true, true] ∧
    ((LockFreeQueue.init T 3).pushSeq [v1, v2, v3]).2.push v4 =
      (false, ((LockFreeQueue.init T 3).pushSeq [v1, v2, v3]).2) := by
  norm_num [LockFreeQueue.init, LockFreeQueue.push, LockFreeQueue.pushSeq]

/-- Write the values `vs` into consecutive slots of `l` starting at index `i`:
the cumulative effect on the backing array of a run of successful pushes. -/
def listWrite {T : Type u} (l : List T) : Nat → List T → List T
  | _, [] => l
  | i, v :: vs => listWrite (l.set i v) (i + 1) vs

theorem listWrite_length {T : Type u} :
    ∀ (vs : List T) (l : List T) (i : Nat), (listWrite l i vs).length = l.length := by
  intro vs
  induction vs with
  | nil => intro l i; rfl
  | cons v vs ih => intro l i; simp [listWrite, ih]

theorem listWrite_getD_lt {T : Type u} [Inhabited T] :
    ∀ (vs : List T) (l : List T) (i k : Nat), k < i →
      (listWrite l i vs).getD k default = l.getD k default := by
  intro vs
  induction vs with
  | nil => intro l i k _; rfl
  | cons v vs ih =>
    intro l i k hk
    have h1 := ih (l.set i v) (i + 1) k (by omega)
    rw [listWrite, h1, List.getD_eq_getD_get?, List.getD_eq_getD_get?,
      List.get?_set_ne _ _ (by omega)]

theorem listWrite_getD {T : Type u} [Inhabited T] :
    ∀ (vs : List T) (l : List T) (i j : Nat), j < vs.length →
      i + vs.length ≤ l.length →
      (listWrite l i vs).getD (i + j) default = vs.getD j default := by
  intro vs
  induction vs with
  | nil => intro l i j hj _; simp at hj
  | cons v vs ih =>
    intro l i j hj hlen
    match j with
    | 0 =>
      have hlt : i < l.length := by simp at hlen; omega
      simp only [listWrite, Nat.add_zero]
      rw [listWrite_getD_lt vs (l.set i v) (i + 1) i (by omega),
        List.getD_eq_getD_get?, List.get?_set_eq_of_lt _ hlt]
      rfl
    | j + 1 =>
      have h1 := ih (l.set i v) (i + 1) j (by simpa using hj)
        (by simp at hlen ⊢; omega)
      simp only [listWrite]
      rw [show i + (j + 1) = (i + 1) + j by omega, h1]
      rfl

/-- Characterisation of a run of pushes that does not wrap the ring: starting
from a state with `reader = 0` and room for all of `vs`, every push succeeds, the
writer index advances by `vs.length` and the values land in consecutive slots. -/
theorem pushSeq_no_wrap {T : Type u} (size : Nat) :
    ∀ (vs : List T) (q : LockFreeQueue T),
      q.capacity = size + 1 → q.reader = 0 →
      q.writer + vs.length ≤ size → q.data.length = size + 1 →
      q.pushSeq vs =
        (List.replicate vs.length true,
         { capacity := size + 1, reader := 0, writer := q.writer + vs.length,
           data := listWrite q.data q.writer vs }) := by
  intro vs
  induction vs with
  | nil =>
    intro q hcap hr hw _
    obtain ⟨cap, r, w, d⟩ := q
    simp_all [LockFreeQueue.pushSeq, listWrite]
  | cons v vs ih =>
    intro q hcap hr hw hd
    have hmod : (q.writer + 1) % q.capacity = q.writer + 1 := by
      rw [hcap]; exact Nat.mod_eq_of_lt (by simp at hw; omega)
    have hcond : ¬ ((q.writer + 1) % q.capacity = q.reader) := by
      rw [hmod, hr]; omega
    have hpush : q.push v =
        (true, { q with data := q.data.set q.writer v, writer := q.writer + 1 }) := by
      simp only [LockFreeQueue.push, hmod]
      rw [if_neg (show ¬ (q.writer + 1 = q.reader) by omega)]
    have ihq := ih { q with data := q.data.set q.writer v, writer := q.writer + 1 }
      hcap hr (by simp at hw ⊢; omega) (by simpa using hd)
    simp only [LockFreeQueue.pushSeq]
    rw [hpush]
    simp only [ihq, Prod.mk.injEq]
    constructor
    · simp [List.replicate_succ]
    · rw [show (v :: vs).length = vs.length + 1 from rfl,
        show q.writer + (vs.length + 1) = q.writer + 1 + vs.length by omega]
      simp only [listWrite]

/-- Characterisation of a run of pops that does not wrap the ring: as long as at
least `n` elements separate the reader from the writer and the writer has not
wrapped, `n` pops succeed and return the `n` consecutive slots from `reader`. -/
theorem popSeq_no_wrap {T : Type u} [Inhabited T] (size : Nat) :
    ∀ (n : Nat) (q : LockFreeQueue T),
      q.capacity = size + 1 → q.reader + n ≤ q.writer → q.writer ≤ size →
      q.popSeq n =
        ((List.range n).map (fun j => some (q.data.getD (q.reader + j) default)),
         { q with reader := q.reader + n }) := by
  intro n
  induction n with
  | zero => intro q _ _ _; simp [LockFreeQueue.popSeq]
  | succ n ih =>
    intro q hcap hr hw
    have hcond : ¬ (q.reader = q.writer) := by omega
    have hmod : (q.reader + 1) % q.capacity = q.reader + 1 := by
      rw [hcap]; exact Nat.mod_eq_of_lt (by omega)
    have hpop : q.pop =
        (some (q.data.getD q.reader default), { q with reader := q.reader + 1 }) := by
      simp only [LockFreeQueue.pop, hmod]
      rw [if_neg hcond]
    have ihq := ih { q with reader := q.reader + 1 } hcap (by simp; omega) hw
    simp only [LockFreeQueue.popSeq]
    rw [hpop]
    simp only [ihq, Prod.mk.injEq]
    constructor
    · simp only [List.range_succ_eq_map, List.map_cons, List.map_map, Nat.add_zero]
      refine congrArg (List.cons _) (List.map_congr_left ?_)
      intro j _
      simp only [Function.comp_apply, Nat.succ_eq_add_one]
      rw [show q.reader + 1 + j = q.reader + (j + 1) by omega]
    · rw [show q.reader + (n + 1) = q.reader + 1 + n by omega]

/-- Reading every index of a list through `getD` reproduces the list. -/
theorem map_getD_range {T : Type u} [Inhabited T] (vs : List T) :
    (List.range vs.length).map (fun j => some (vs.getD j default)) = vs.map some := by
  refine List.ext_getElem (by simp) ?_
  intro j h1 h2
  simp only [List.getElem_map, List.getElem_range]
  rw [List.getD_eq_getElem]

/-- C1.  FIFO order for the bounded queue: from the freshly constructed state, any
sequence of `N ≤ size` pushes of `v1..vN` all return `true`, and the following
`N` pops return exactly `v1..vN` in order (each wrapped in `some`, i.e. each pop
returns `true`). -/
theorem lockFreeQueue_fifo (T : Type u) [Inhabited T] (size : Nat) (vs : List T)
    (h : vs.length ≤ size) :
    ((LockFreeQueue.init T size).pushSeq vs).1 = List.replicate vs.length true ∧
    (((LockFreeQueue.init T size).pushSeq vs).2.popSeq vs.length).1 = vs.map some := by
  have hpush := pushSeq_no_wrap size vs (LockFreeQueue.init T size) rfl rfl
    (by simpa [LockFreeQueue.init] using h) (by simp [LockFreeQueue.init])
  have hdlen : (LockFreeQueue.init T size).data.length = size + 1 := by
    simp [LockFreeQueue.init]
  refine ⟨by rw [hpush], ?_⟩
  rw [hpush]
  have hpop := popSeq_no_wrap size vs.length
    { capacity := size + 1, reader := 0,
      writer := (LockFreeQueue.init T size).writer + vs.length,
      data := listWrite (LockFreeQueue.init T size).data
        (LockFreeQueue.init T size).writer vs }
    rfl (by simp [LockFreeQueue.init]) (by simpa [LockFreeQueue.init] using h)
  rw [hpop]
  rw [← map_getD_range vs]
  refine List.map_congr_left ?_
  intro j hj
  simp only [List.mem_range] at hj
  have hg := listWrite_getD vs (List.replicate (size + 1) (default : T)) 0 j hj
    (by simp; omega)
  simp only [LockFreeQueue.init]
  simp only [Nat.zero_add]
  exact congrArg some (by simpa using hg)

/-- C1 witness: pushing `[10, 20]` into `LockFreeQueue<Nat, 3>` returns
`[true, true]` and the two subsequent pops return `10` then `20`. -/
theorem lockFreeQueue_fifo_witness :
    ((LockFreeQueue.init Nat 3).pushSeq [10, 20]).1 = List.replicate 2 true ∧
    (((LockFreeQueue.init Nat 3).pushSeq [10, 20]).2.popSeq 2).1 = [10, 20].map some :=
  lockFreeQueue_fifo Nat 3 [10, 20] (by decide)

/-- States of `LockFreeQueue<T, size>` reachable from the freshly constructed
state by `push` and `pop` calls. -/
inductive LockFreeQueue.Reachable (T : Type u) [Inhabited T] (size : Nat) :
    LockFreeQueue T → Prop
  | init : Reachable T size (LockFreeQueue.init T size)
  | push (q : LockFreeQueue T) (e : T) :
      Reachable T size q → Reachable T size (q.push e).2
  | pop (q : LockFreeQueue T) : Reachable T size q → Reachable T size q.pop.2

/-- Structural invariant of every reachable bounded-queue state: the capacity
member equals `size + 1`, both indices are strictly below it, and the backing
array keeps its length. -/
theorem LockFreeQueue.reachable_invariant {T : Type u} [Inhabited T] {size : Nat}
    {q : LockFreeQueue T} (h : LockFreeQueue.Reachable T size q) :
    q.capacity = size + 1 ∧ q.reader < q.capacity ∧ q.writer < q.capacity ∧
      q.data.length = q.capacity := by
  induction h with
  | init => simp [LockFreeQueue.init]
  | push q e _ ih =>
    obtain ⟨h1, h2, h3, h4⟩ := ih
    by_cases hc : (q.writer + 1) % q.capacity = q.reader
    · simp only [LockFreeQueue.push, if_pos hc]
      exact ⟨h1, h2, h3, h4⟩
    · simp only [LockFreeQueue.push, if_neg hc]
      exact ⟨h1, h2, Nat.mod_lt _ (by omega), by simpa using h4⟩
  | pop q _ ih =>
    obtain ⟨h1, h2, h3, h4⟩ := ih
    by_cases hc : q.reader = q.writer
    · simp only [LockFreeQueue.pop, if_pos hc]
      exact ⟨h1, h2, h3, h4⟩
    · simp only [LockFreeQueue.pop, if_neg hc]
      exact ⟨h1, Nat.mod_lt _ (by omega), h3, h4⟩

/-- C7.  In every reachable state of the bounded queue the number of live
elements `(writer - reader) mod (size + 1)` — written with the usual Nat
rendering of the wrap-around difference, `(writer + capacity - reader) %
capacity` — lies in `[0, size]`; `push` fails exactly when advancing the
writer index by one modulo `size + 1` hits the reader index (full), `pop`
fails exactly when the two indices coincide (empty), and both operations
preserve reachability, hence the invariant. -/
theorem lockFreeQueue_index_invariant (T : Type u) [Inhabited T] (size : Nat)
    (q : LockFreeQueue T) (h : LockFreeQueue.Reachable T size q) :
    (q.writer + q.capacity - q.reader) % q.capacity ≤ size ∧
    (∀ e : T, ((q.push e).1 = false ↔ (q.writer + 1) % q.capacity = q.reader)) ∧
    (q.pop.1 = none ↔ q.writer = q.reader) ∧
    (∀ e : T, LockFreeQueue.Reachable T size (q.push e).2) ∧
    LockFreeQueue.Reachable T size q.pop.2 := by
  obtain ⟨h1, h2, h3, h4⟩ := LockFreeQueue.reachable_invariant h
  refine ⟨?_, ?_, ?_, fun e => .push q e h, .pop q h⟩
  · have : (q.writer + q.capacity - q.reader) % q.capacity < q.capacity :=
      Nat.mod_lt _ (by omega)
    omega
  · intro e
    by_cases hc : (q.writer + 1) % q.capacity = q.reader
    · simp only [LockFreeQueue.push, if_pos hc]
      simpa using hc
    · simp only [LockFreeQueue.push, if_neg hc]
      simpa using hc
  · by_cases hc : q.reader = q.writer
    · simp only [LockFreeQueue.pop, if_pos hc]
      simp [hc]
    · simp only [LockFreeQueue.pop, if_neg hc]
      have hcontra : ¬ q.writer = q.reader := fun hh => hc hh.symm
      simpa using hcontra

/-- C7 witness: the invariant instantiated at the freshly constructed
`LockFreeQueue<Nat, 3>`, whose reachability is immediate. -/
theorem lockFreeQueue_index_invariant_witness :
    ((LockFreeQueue.init Nat 3).writer + (LockFreeQueue.init Nat 3).capacity -
        (LockFreeQueue.init Nat 3).reader) % (LockFreeQueue.init Nat 3).capacity ≤ 3 ∧
    ((LockFreeQueue.init Nat 3).pop.1 = none ↔
      (LockFreeQueue.init Nat 3).writer = (LockFreeQueue.init Nat 3).reader) :=
  ⟨(lockFreeQueue_index_invariant Nat 3 _ LockFreeQueue.Reachable.init).1,
   (lockFreeQueue_index_invariant Nat 3 _ LockFreeQueue.Reachable.init).2.2.1⟩

/-- State of `UnboundedLockFreeQueue<T, size>::MemoryBlock` (lines 56-63): per-block
reader and writer indices and the block's backing array `T data[size + 1]`.  The
`next_block` pointer is represented by adjacency in the queue's block list. -/
structure MemoryBlock (T : Type u) where
  reader : Nat
  writer : Nat
  data : List T
deriving DecidableEq

/-- A freshly allocated `MemoryBlock` (constructor, line 61): both indices zero,
`next_block` null (no successor yet). -/
def MemoryBlock.fresh (T : Type u) [Inhabited T] (capacity : Nat) : MemoryBlock T :=
  { reader := 0, writer := 0, data := List.replicate capacity default }

/-- State of `UnboundedLockFreeQueue<T, size>` (lines 51-158).  `blocks` is the
chain of live blocks from `head` (first element) to `tail` (last element),
linked in order by their `next_block` pointers; in every reachable state it is
nonempty.  `stop` is the atomic shutdown flag.  `allocated` counts every
`new MemoryBlock()` ever executed (including the constructor's) and `freed`
counts every `delete` executed by `pop`; they are ghost counters that let the
block-lifecycle claims be stated, and no operation reads them. -/
structure UnboundedLockFreeQueue (T : Type u) where
  capacity : Nat
  blocks : List (MemoryBlock T)
  stop : Bool
  allocated : Nat
  freed : Nat
deriving DecidableEq

/-- The freshly constructed `UnboundedLockFreeQueue<T, size>` (lines 70-73):
`capacity = size + 1`, `stop = false`, and `head = tail = new MemoryBlock()`. -/
def UnboundedLockFreeQueue.init (T : Type u) [Inhabited T] (size : Nat) :
    UnboundedLockFreeQueue T :=
  { capacity := size + 1, blocks := [MemoryBlock.fresh T (size + 1)],
    stop := false, allocated := 1, freed := 0 }

/-- `UnboundedLockFreeQueue::push` (lines 94-124).  If `stop` is set, return
`false` at once.  Otherwise work on the tail block: if it is full, allocate a
fresh block (`allocOk` models whether `new` yields a block, the source's
`next_block == nullptr` check being its failure test — on failure return `false`
with nothing mutated), link it behind the old tail, advance `tail`, and restart
the write at slot 0; finally store `elem` at the write position and publish the
incremented writer index.  The dead branch for an empty chain mirrors the fact
that `tail` always points at a block in the C++ object. -/
def UnboundedLockFreeQueue.push {T : Type u} [Inhabited T]
    (q : UnboundedLockFreeQueue T) (elem : T) (allocOk : Bool) :
    Bool × UnboundedLockFreeQueue T :=
  if q.stop then (false, q)
  else
    match q.blocks.getLast? with
    | none => (false, q)
    | some current_tail =>
      let wr_pos := current_tail.writer
      let next_pos := (wr_pos + 1) % q.capacity
      if next_pos = current_tail.reader then
        if allocOk then
          let nb := MemoryBlock.fresh T q.capacity
          (true,
           { q with
               blocks := q.blocks ++
                 [{ nb with data := nb.data.set 0 elem, writer := 1 % q.capacity }],
               allocated := q.allocated + 1 })
        else (false, q)
      else
        (true,
         { q with
             blocks := q.blocks.dropLast ++
               [{ current_tail with
                            data := current_tail.data.set wr_pos elem,
                            writer := next_pos }] })

/-- `UnboundedLockFreeQueue::pop` (lines 126-156).  If `stop` is set, return
`false` at once.  Otherwise inspect the head block: if its reader index has
caught up with its writer index the block is drained; with no successor the
queue is empty (`false`, no mutation), otherwise advance `head` to the
successor, delete the drained block, and re-check at slot 0 of the new head —
if that block's writer index is still 0 return `false` (without looking any
further), else read slot `rd_pos` and publish the advanced reader index. -/
def UnboundedLockFreeQueue.pop {T : Type u} [Inhabited T]
    (q : UnboundedLockFreeQueue T) : Option T × UnboundedLockFreeQueue T :=
  if q.stop then (none, q)
  else
    match q.blocks with
    | [] => (none, q)
    | current_head :: rest =>
      let rd_pos := current_head.reader
      if rd_pos = current_head.writer then
        match rest with
        | [] => (none, q)
        | next_block :: rest2 =>
          if 0 = next_block.writer then
            (none, { q with blocks := next_block :: rest2, freed := q.freed + 1 })
          else
            (some (next_block.data.getD 0 default),
             { q with
                 blocks := { next_block with reader := 1 % q.capacity } :: rest2,
                 freed := q.freed + 1 })
      else
        (some (current_head.data.getD rd_pos default),
         { q with
             blocks := { current_head with
                           reader := (rd_pos + 1) % q.capacity } :: rest })

/-- Run a sequence of unbounded-queue pushes (allocation succeeding, as it
always does when `new` does not fail), collecting the returned flags. -/
def UnboundedLockFreeQueue.pushSeq {T : Type u} [Inhabited T]
    (q : UnboundedLockFreeQueue T) :
    List T → List Bool × UnboundedLockFreeQueue T
  | [] => ([], q)
  | v :: vs =>
    let r := q.push v true
    let rest := r.2.pushSeq vs
    (r.1 :: rest.1, rest.2)

/-- Run `n` consecutive unbounded-queue pops, collecting the returned values. -/
def UnboundedLockFreeQueue.popSeq {T : Type u} [Inhabited T]
    (q : UnboundedLockFreeQueue T) :
    Nat → List (Option T) × UnboundedLockFreeQueue T
  | 0 => ([], q)
  | n + 1 =>
    let r := q.pop
    let rest := r.2.popSeq n
    (r.1 :: rest.1, rest.2)

/-- C3.  Sequential cross-block behaviour of `UnboundedLockFreeQueue<T,2>` from
the freshly constructed state: five pushes of `v1..v5` all return `true` (with
block capacity 2 the elements span three blocks, so at least two), five
subsequent pops return `some v1 .. some v5` in the original order, exactly
`3 = ⌈5/2⌉` blocks are ever allocated (the minimum needed, counting the initial
one), and exactly the `2` drained blocks have been freed, each once, as the
consumer advanced past them. -/
theorem unboundedQueue_cross_block_fifo (T : Type u) [Inhabited T]
    (v1 v2 v3 v4 v5 : T) :
    ((UnboundedLockFreeQueue.init T 2).pushSeq [v1, v2, v3, v4, v5]).1 =
      List.replicate 5 true ∧
    (((UnboundedLockFreeQueue.init T 2).pushSeq
        [v1, v2, v3, v4, v5]).2.popSeq 5).1 =
      [some v1, some v2, some v3, some v4, some v5] ∧
    (((UnboundedLockFreeQueue.init T 2).pushSeq
        [v1, v2, v3, v4, v5]).2.popSeq 5).2.allocated = 3 ∧
    (((UnboundedLockFreeQueue.init T 2).pushSeq
        [v1, v2, v3, v4, v5]).2.popSeq 5).2.freed = 2 := by
  have h1 : (UnboundedLockFreeQueue.init T 2).push v1 true =
      (true, UnboundedLockFreeQueue.mk 3
        [MemoryBlock.mk 0 1 [v1, default, default]] false 1 0) := by
    simp [UnboundedLockFreeQueue.init, UnboundedLockFreeQueue.push,
      MemoryBlock.fresh, List.replicate]
  have h2 : (UnboundedLockFreeQueue.mk 3
        [MemoryBlock.mk 0 1 [v1, default, default]] false 1 0).push v2 true =
      (true, UnboundedLockFreeQueue.mk 3
        [MemoryBlock.mk 0 2 [v1, v2, default]] false 1 0) := by
    simp [UnboundedLockFreeQueue.push]
  have h3 : (UnboundedLockFreeQueue.mk 3
        [MemoryBlock.mk 0 2 [v1, v2, default]] false 1 0).push v3 true =
      (true, UnboundedLockFreeQueue.mk 3
        [MemoryBlock.mk 0 2 [v1, v2, default],
         MemoryBlock.mk 0 1 [v3, default, default]] false 2 0) := by
    simp [UnboundedLockFreeQueue.push, MemoryBlock.fresh, List.replicate]
  have h4 : (UnboundedLockFreeQueue.mk 3
        [MemoryBlock.mk 0 2 [v1, v2, default],
         MemoryBlock.mk 0 1 [v3, default, default]] false 2 0).push v4 true =
      (true, UnboundedLockFreeQueue.mk 3
        [MemoryBlock.mk 0 2 [v1, v2, default],
         MemoryBlock.mk 0 2 [v3, v4, default]] false 2 0) := by
    simp [UnboundedLockFreeQueue.push]
  have h5 : (UnboundedLockFreeQueue.mk 3
        [MemoryBlock.mk 0 2 [v1, v2, default],
         MemoryBlock.mk 0 2 [v3, v4, default]] false 2 0).push v5 true =
      (true, UnboundedLockFreeQueue.mk 3
        [MemoryBlock.mk 0 2 [v1, v2, default],
         MemoryBlock.mk 0 2 [v3, v4, default],
         MemoryBlock.mk 0 1 [v5, default, default]] false 3 0) := by
    simp [UnboundedLockFreeQueue.push, MemoryBlock.fresh, List.replicate]
  have p1 : (UnboundedLockFreeQueue.mk 3
        [MemoryBlock.mk 0 2 [v1, v2, default],
         MemoryBlock.mk 0 2 [v3, v4, default],
         MemoryBlock.mk 0 1 [v5, default, default]] false 3 0).pop =
      (some v1, UnboundedLockFreeQueue.mk 3
        [MemoryBlock.mk 1 2 [v1, v2, default],
         MemoryBlock.mk 0 2 [v3, v4, default],
         MemoryBlock.mk 0 1 [v5, default, default]] false 3 0) := by
    simp [UnboundedLockFreeQueue.pop]
  have p2 : (UnboundedLockFreeQueue.mk 3
        [MemoryBlock.mk 1 2 [v1, v2, default],
         MemoryBlock.mk 0 2 [v3, v4, default],
         MemoryBlock.mk 0 1 [v5, default, default]] false 3 0).pop =
      (some v2, UnboundedLockFreeQueue.mk 3
        [MemoryBlock.mk 2 2 [v1, v2, default],
         MemoryBlock.mk 0 2 [v3, v4, default],
         MemoryBlock.mk 0 1 [v5, default, default]] false 3 0) := by
    simp [UnboundedLockFreeQueue.pop]
  have p3 : (UnboundedLockFreeQueue.mk 3
        [MemoryBlock.mk 2 2 [v1, v2, default],
         MemoryBlock.mk 0 2 [v3, v4, default],
         MemoryBlock.mk 0 1 [v5, default, default]] false 3 0).pop =
      (some v3, UnboundedLockFreeQueue.mk 3
        [MemoryBlock.mk 1 2 [v3, v4, default],
         MemoryBlock.mk 0 1 [v5, default, default]] false 3 1) := by
    simp [UnboundedLockFreeQueue.pop]
  have p4 : (UnboundedLockFreeQueue.mk 3
        [MemoryBlock.mk 1 2 [v3, v4, default],
         MemoryBlock.mk 0 1 [v5, default, default]] false 3 1).pop =
      (some v4, UnboundedLockFreeQueue.mk 3
        [MemoryBlock.mk 2 2 [v3, v4, default],
         MemoryBlock.mk 0 1 [v5, default, default]] false 3 1) := by
    simp [UnboundedLockFreeQueue.pop]
  have p5 : (UnboundedLockFreeQueue.mk 3
        [MemoryBlock.mk 2 2 [v3, v4, default],
         MemoryBlock.mk 0 1 [v5, default, default]] false 3 1).pop =
      (some v5, UnboundedLockFreeQueue.mk 3
        [MemoryBlock.mk 1 1 [v5, default, default]] false 3 2) := by
    simp [UnboundedLockFreeQueue.pop]
  simp only [UnboundedLockFreeQueue.pushSeq, UnboundedLockFreeQueue.popSeq,
    h1, h2, h3, h4, h5, p1, p2, p3, p4, p5]
  norm_num [List.replicate]

/-- The `stop.store(true)` step of the destructor (line 77) — the only statement
in the source that ever writes the `stop` flag, and it only writes `true`. -/
def UnboundedLockFreeQueue.shutdown {T : Type u} (q : UnboundedLockFreeQueue T) :
    UnboundedLockFreeQueue T :=
  { q with stop := true }

/-- C4.  Shutdown finality: once `stop` is `true`, every `push` (whatever the
value and whatever the allocator would do) and every `pop` returns `false` with
the state untouched; moreover neither operation ever writes the flag, and
`shutdown` — the sole writer — sets it to `true` and is idempotent, so the flag
moves monotonically from `false` to `true` and is set at most once. -/
theorem unboundedQueue_shutdown_final (T : Type u) [Inhabited T] :
    (∀ (q : UnboundedLockFreeQueue T) (e : T) (ok : Bool), q.stop = true →
      q.push e ok = (false, q) ∧ q.pop = (none, q)) ∧
    (∀ (q : UnboundedLockFreeQueue T) (e : T) (ok : Bool),
      (q.push e ok).2.stop = q.stop ∧ q.pop.2.stop = q.stop) ∧
    (∀ q : UnboundedLockFreeQueue T,
      q.shutdown.stop = true ∧ q.shutdown.shutdown = q.shutdown) := by
  refine ⟨?_, ?_, fun q => ⟨rfl, rfl⟩⟩
  · intro q e ok h
    constructor
    · simp [UnboundedLockFreeQueue.push, h]
    · simp [UnboundedLockFreeQueue.pop, h]
  · intro q e ok
    constructor
    · simp only [UnboundedLockFreeQueue.push]
      split
      · rfl
      · split
        · rfl
        · split
          · split <;> rfl
          · rfl
    · simp only [UnboundedLockFreeQueue.pop]
      split
      · rfl
      · split
        · rfl
        · split
          · split
            · rfl
            · split <;> rfl
          · rfl

/-- C4 witness: on a shut-down `UnboundedLockFreeQueue<Nat,0>`, a push of `7`
fails and leaves the state unchanged, a pop fails likewise, and neither call
touched the flag. -/
theorem unboundedQueue_shutdown_final_witness :
    (UnboundedLockFreeQueue.init Nat 0).shutdown.push 7 true =
      (false, (UnboundedLockFreeQueue.init Nat 0).shutdown) ∧
    (UnboundedLockFreeQueue.init Nat 0).shutdown.pop =
      (none, (UnboundedLockFreeQueue.init Nat 0).shutdown) :=
  (unboundedQueue_shutdown_final Nat).1 (UnboundedLockFreeQueue.init Nat 0).shutdown
    7 true rfl

/-- C5.  When the head block is drained (`reader = writer`) and a successor link
is present whose writer index is still 0, `pop` advances `head` to the
successor, frees the drained block, and returns `false` — for an arbitrary
remainder `rest` of the chain, so it provably never loops on or inspects any
block beyond the new head within the same call, even when later blocks hold
data. -/
theorem unboundedQueue_pop_advance_then_empty (T : Type u) [Inhabited T]
    (q : UnboundedLockFreeQueue T) (b0 b1 : MemoryBlock T)
    (rest : List (MemoryBlock T))
    (hstop : q.stop = false)
    (hblocks : q.blocks = b0 :: b1 :: rest)
    (hdrained : b0.reader = b0.writer)
    (hempty : b1.writer = 0) :
    q.pop = (none, { q with blocks := b1 :: rest, freed := q.freed + 1 }) := by
  simp [UnboundedLockFreeQueue.pop, hstop, hblocks, hdrained, hempty]

/-- C5 witness: at capacity-2 blocks, with the head block drained at index 1 and
an empty linked successor followed by a further block holding data, `pop`
advances past the head, frees it, and reports empty without touching the third
block. -/
theorem unboundedQueue_pop_advance_then_empty_witness :
    (UnboundedLockFreeQueue.mk 2
        [MemoryBlock.mk 1 1 [5, 0], MemoryBlock.mk 0 0 [0, 0],
         MemoryBlock.mk 0 1 [9, 0]] false 3 0).pop =
      (none, UnboundedLockFreeQueue.mk 2
        [MemoryBlock.mk 0 0 [0, 0], MemoryBlock.mk 0 1 [9, 0]] false 3 1) :=
  unboundedQueue_pop_advance_then_empty Nat _ (MemoryBlock.mk 1 1 [5, 0])
    (MemoryBlock.mk 0 0 [0, 0]) [MemoryBlock.mk 0 1 [9, 0]] rfl rfl rfl rfl

/-- C6.  With the tail block full and `stop` clear: if the block allocation
fails (`new` yielding no block, the source's `next_block == nullptr` test),
`push` returns `false` with the state — hence the chain and every index —
untouched and the value not enqueued, which is observationally the same
`(false, unchanged)` outcome as an ordinary full-buffer failure; if allocation
succeeds, the fresh block is linked as the old tail's successor (appended to the
chain), `tail` advances to it, and the value lands in its slot 0 with the
block's writer index published as `1 % capacity`. -/
theorem unboundedQueue_push_alloc_cases (T : Type u) [Inhabited T]
    (q : UnboundedLockFreeQueue T) (tb : MemoryBlock T) (e : T)
    (hstop : q.stop = false)
    (hlast : q.blocks.getLast? = some tb)
    (hfull : (tb.writer + 1) % q.capacity = tb.reader) :
    q.push e false = (false, q) ∧
    q.push e true =
      (true,
       { q with
           blocks := q.blocks ++
             [{ reader := 0, writer := 1 % q.capacity,
                data := (List.replicate q.capacity (default : T)).set 0 e }],
           allocated := q.allocated + 1 }) := by
  constructor <;>
    simp [UnboundedLockFreeQueue.push, hstop, hlast, hfull, MemoryBlock.fresh]

/-- C6 witness: a single full capacity-2 block (writer 1, reader 0); push with
failing allocation returns `false` and changes nothing, push with succeeding
allocation appends the new block carrying the value in slot 0. -/
theorem unboundedQueue_push_alloc_cases_witness :
    (UnboundedLockFreeQueue.mk 2 [MemoryBlock.mk 0 1 [9, 0]] false 1 0).push 4 false =
      (false, UnboundedLockFreeQueue.mk 2 [MemoryBlock.mk 0 1 [9, 0]] false 1 0) ∧
    (UnboundedLockFreeQueue.mk 2 [MemoryBlock.mk 0 1 [9, 0]] false 1 0).push 4 true =
      (true, UnboundedLockFreeQueue.mk 2
        [MemoryBlock.mk 0 1 [9, 0], MemoryBlock.mk 0 1 [4, 0]] false 2 0) := by
  have h := unboundedQueue_push_alloc_cases Nat
    (UnboundedLockFreeQueue.mk 2 [MemoryBlock.mk 0 1 [9, 0]] false 1 0)
    (MemoryBlock.mk 0 1 [9, 0]) 4 rfl rfl rfl
  refine ⟨h.1, ?_⟩
  rw [h.2]
  rfl

/-- The queue as the consumer can observe it at the producer's intermediate
point inside a full-tail `push`: after the `next_block` release store of line
108 but before the data write of line 117 and the writer-index release store of
line 118, the fresh block is already linked behind the old tail and still
empty.  A concurrent `pop`'s acquire loads may see exactly this state. -/
def UnboundedLockFreeQueue.linkOnly {T : Type u} [Inhabited T]
    (q : UnboundedLockFreeQueue T) : UnboundedLockFreeQueue T :=
  { q with blocks := q.blocks ++ [MemoryBlock.fresh T q.capacity],
           allocated := q.allocated + 1 }

/-- States of `UnboundedLockFreeQueue<T, size>` the consumer can observe,
starting from the freshly constructed state: complete `push` and `pop` calls,
plus the published-link-but-unpublished-write point inside a full-tail `push`
(`linkOnly`, guarded by exactly the conditions under which the producer takes
that path). -/
inductive UnboundedLockFreeQueue.Reachable (T : Type u) [Inhabited T]
    (size : Nat) : UnboundedLockFreeQueue T → Prop
  | init : Reachable T size (UnboundedLockFreeQueue.init T size)
  | push (q : UnboundedLockFreeQueue T) (e : T) (ok : Bool) :
      Reachable T size q → Reachable T size (q.push e ok).2
  | pop (q : UnboundedLockFreeQueue T) :
      Reachable T size q → Reachable T size q.pop.2
  | pushLink (q : UnboundedLockFreeQueue T) (tb : MemoryBlock T) :
      Reachable T size q → q.stop = false → q.blocks.getLast? = some tb →
      (tb.writer + 1) % q.capacity = tb.reader →
      Reachable T size q.linkOnly

/-- A concrete observable state of `UnboundedLockFreeQueue<Nat,1>`: head block
fully drained (`reader = writer = 1`), with a linked, still-empty successor —
obtained by pushing 7, the producer then linking a new block for the next push,
and the consumer popping the 7. -/
def raceState : UnboundedLockFreeQueue Nat :=
  { capacity := 2,
    blocks := [MemoryBlock.mk 1 1 [7, 0], MemoryBlock.mk 0 0 [0, 0]],
    stop := false, allocated := 2, freed := 0 }

/-- C9.  A `false` return from the unbounded queue's `pop` does not imply the
state is unchanged: in the reachable state `raceState` (head drained, successor
linked and still empty), `pop` returns `false` yet advances `head` and frees a
block, so the state differs; by contrast the bounded `LockFreeQueue::pop`
leaves the state exactly unchanged whenever it returns `false`. -/
theorem unboundedQueue_pop_false_can_mutate :
    (UnboundedLockFreeQueue.Reachable Nat 1 raceState ∧
     raceState.pop.1 = none ∧ raceState.pop.2 ≠ raceState) ∧
    (∀ (T : Type) (inst : Inhabited T) (bq : LockFreeQueue T),
      bq.pop.1 = none → bq.pop.2 = bq) := by
  constructor
  · refine ⟨?_, by decide, by decide⟩
    have r1 := @UnboundedLockFreeQueue.Reachable.push Nat _ 1
      (UnboundedLockFreeQueue.init Nat 1) 7 true UnboundedLockFreeQueue.Reachable.init
    have r2 := @UnboundedLockFreeQueue.Reachable.pushLink Nat _ 1
      ((UnboundedLockFreeQueue.init Nat 1).push 7 true).2 (MemoryBlock.mk 0 1 [7, 0])
      r1 (by decide) (by decide) (by decide)
    have r3 := @UnboundedLockFreeQueue.Reachable.pop Nat _ 1
      ((UnboundedLockFreeQueue.init Nat 1).push 7 true).2.linkOnly r2
    have hstate :
        ((UnboundedLockFreeQueue.init Nat 1).push 7 true).2.linkOnly.pop.2 =
          raceState := by decide
    rw [hstate] at r3
    exact r3
  · intro T inst bq h
    by_cases hc : bq.reader = bq.writer
    · simp [LockFreeQueue.pop, hc]
    · simp [LockFreeQueue.pop, hc] at h

/-- C9 witness: the bounded-queue half of the statement applied at the freshly
constructed `LockFreeQueue<Nat,1>`, whose `pop` returns `false`. -/
theorem unboundedQueue_pop_false_can_mutate_witness :
    (LockFreeQueue.init Nat 1).pop.2 = LockFreeQueue.init Nat 1 :=
  unboundedQueue_pop_false_can_mutate.2 Nat inferInstance
    (LockFreeQueue.init Nat 1) (by decide)

/-- Membership of the value reported by `getLast?`. -/
theorem mem_of_getLast? {T : Type u} :
    ∀ {l : List T} {a : T}, l.getLast? = some a → a ∈ l
  | [], _, h => by simp at h
  | [x], a, h => by
    simp only [List.getLast?_singleton, Option.some.injEq] at h
    simp [h]
  | x :: y :: ys, a, h => by
    rw [List.getLast?_cons_cons] at h
    exact List.mem_cons_of_mem x (mem_of_getLast? h)

/-- Every consumer-observable state of the unbounded queue keeps `capacity =
size + 1` and, in every live block of the chain, both indices strictly below
`capacity` and a backing array of length `capacity`: the per-block analogue of
the bounded queue's index bound. -/
theorem UnboundedLockFreeQueue.reachable_blocks_invariant {T : Type u}
    [Inhabited T] {size : Nat} {q : UnboundedLockFreeQueue T}
    (h : UnboundedLockFreeQueue.Reachable T size q) :
    q.capacity = size + 1 ∧
    ∀ b ∈ q.blocks, b.reader < q.capacity ∧ b.writer < q.capacity ∧
      b.data.length = q.capacity := by
  induction h with
  | init =>
    refine ⟨rfl, ?_⟩
    intro b hb
    simp only [UnboundedLockFreeQueue.init, List.mem_singleton] at hb
    subst hb
    simp [MemoryBlock.fresh, UnboundedLockFreeQueue.init]
  | push q e ok hq ih =>
    obtain ⟨hcap, hinv⟩ := ih
    have hpos : 0 < q.capacity := by omega
    simp only [UnboundedLockFreeQueue.push]
    split
    · exact ⟨hcap, hinv⟩
    · split
      · exact ⟨hcap, hinv⟩
      · rename_i tb hlast
        split
        · split
          · refine ⟨hcap, ?_⟩
            intro b hb
            rcases List.mem_append.1 hb with hmem | hmem
            · exact hinv b hmem
            · rw [List.mem_singleton] at hmem
              subst hmem
              exact ⟨hpos, Nat.mod_lt _ hpos, by simp [MemoryBlock.fresh]⟩
          · exact ⟨hcap, hinv⟩
        · rename_i hfull
          refine ⟨hcap, ?_⟩
          intro b hb
          rcases List.mem_append.1 hb with hmem | hmem
          · exact hinv b (List.dropLast_subset _ hmem)
          · rw [List.mem_singleton] at hmem
            subst hmem
            obtain ⟨hr, _, hlen⟩ := hinv tb (mem_of_getLast? hlast)
            exact ⟨hr, Nat.mod_lt _ hpos, by simpa using hlen⟩
  | pop q hq ih =>
    obtain ⟨hcap, hinv⟩ := ih
    have hpos : 0 < q.capacity := by omega
    simp only [UnboundedLockFreeQueue.pop]
    split
    · exact ⟨hcap, hinv⟩
    · split
      · exact ⟨hcap, hinv⟩
      · rename_i ch rest hblocks
        split
        · split
          · exact ⟨hcap, hinv⟩
          · rename_i nb rest2
            split
            · refine ⟨hcap, ?_⟩
              intro b hb
              refine hinv b ?_
              rw [hblocks]
              exact List.mem_cons_of_mem ch hb
            · refine ⟨hcap, ?_⟩
              intro b hb
              rcases List.mem_cons.1 hb with hmem | hmem
              · subst hmem
                have hnb : nb ∈ q.blocks := by
                  rw [hblocks]
                  exact List.mem_cons_of_mem ch (List.mem_cons_self nb rest2)
                obtain ⟨_, hw, hlen⟩ := hinv nb hnb
                exact ⟨Nat.mod_lt _ hpos, hw, hlen⟩
              · refine hinv b ?_
                rw [hblocks]
                exact List.mem_cons_of_mem ch (List.mem_cons_of_mem nb hmem)
        · refine ⟨hcap, ?_⟩
          intro b hb
          rcases List.mem_cons.1 hb with hmem | hmem
          · subst hmem
            have hch : ch ∈ q.blocks := by
              rw [hblocks]; exact List.mem_cons_self ch rest
            obtain ⟨_, hw, hlen⟩ := hinv ch hch
            exact ⟨Nat.mod_lt _ hpos, hw, hlen⟩
          · refine hinv b ?_
            rw [hblocks]
            exact List.mem_cons_of_mem ch hmem
  | pushLink q tb hq hstop hlast hfull ih =>
    obtain ⟨hcap, hinv⟩ := ih
    have hpos : 0 < q.capacity := by omega
    refine ⟨hcap, ?_⟩
    intro b hb
    simp only [UnboundedLockFreeQueue.linkOnly] at hb ⊢
    rcases List.mem_append.1 hb with hmem | hmem
    · exact hinv b hmem
    · rw [List.mem_singleton] at hmem
      subst hmem
      exact ⟨hpos, hpos, by simp [MemoryBlock.fresh]⟩

/-- C10.  In every reachable state of the bounded queue both indices are
strictly below `capacity = size + 1`, which equals the length of the backing
array, so the accesses `data[wr_pos]` (line 29) and `data[rd_pos]` (line 42)
are in bounds; the same bound holds for the per-block indices and arrays of
the unbounded queue's `MemoryBlock`s (lines 117 and 149), since every index
update is taken modulo `capacity`. -/
theorem queue_indices_in_bounds (T : Type u) (inst : Inhabited T) (size : Nat) :
    (∀ q : LockFreeQueue T, LockFreeQueue.Reachable T size q →
      q.reader < q.capacity ∧ q.writer < q.capacity ∧
        q.capacity = q.data.length) ∧
    (∀ q : UnboundedLockFreeQueue T, UnboundedLockFreeQueue.Reachable T size q →
      ∀ b ∈ q.blocks, b.reader < q.capacity ∧ b.writer < q.capacity ∧
        q.capacity = b.data.length) := by
  constructor
  · intro q hq
    obtain ⟨_, hr, hw, hlen⟩ := LockFreeQueue.reachable_invariant hq
    exact ⟨hr, hw, hlen.symm⟩
  · intro q hq b hb
    obtain ⟨_, hinv⟩ := UnboundedLockFreeQueue.reachable_blocks_invariant hq
    obtain ⟨hr, hw, hlen⟩ := hinv b hb
    exact ⟨hr, hw, hlen.symm⟩

/-- C10 witness: the bound instantiated at the freshly constructed bounded and
unbounded queues over `Nat` with `size = 1`, at the initial chain block. -/
theorem queue_indices_in_bounds_witness :
    ((LockFreeQueue.init Nat 1).reader < (LockFreeQueue.init Nat 1).capacity ∧
     (LockFreeQueue.init Nat 1).writer < (LockFreeQueue.init Nat 1).capacity ∧
     (LockFreeQueue.init Nat 1).capacity = (LockFreeQueue.init Nat 1).data.length) ∧
    ((MemoryBlock.fresh Nat 2).reader < (UnboundedLockFreeQueue.init Nat 1).capacity ∧
     (MemoryBlock.fresh Nat 2).writer < (UnboundedLockFreeQueue.init Nat 1).capacity ∧
     (UnboundedLockFreeQueue.init Nat 1).capacity = (MemoryBlock.fresh Nat 2).data.length) :=
  ⟨(queue_indices_in_bounds Nat inferInstance 1).1 (LockFreeQueue.init Nat 1)
      LockFreeQueue.Reachable.init,
   (queue_indices_in_bounds Nat inferInstance 1).2 (UnboundedLockFreeQueue.init Nat 1)
      UnboundedLockFreeQueue.Reachable.init (MemoryBlock.fresh Nat 2) (by decide)⟩

/-- State of `MutexedQueue<T, size>` (lines 161-203): the same ring buffer with
plain (non-atomic) indices; the mutex serialises calls and has no sequential
semantics of its own, so it does not appear in the state. -/
structure MutexedQueue (T : Type u) where
  data : List T
  capacity : Nat
  reader : Nat
  writer : Nat
deriving DecidableEq

/-- The freshly constructed `MutexedQueue<T, size>` (line 171). -/
def MutexedQueue.init (T : Type u) [Inhabited T] (size : Nat) : MutexedQueue T :=
  { data := List.replicate (size + 1) default, capacity := size + 1,
    reader := 0, writer := 0 }

/-- `MutexedQueue::push` (lines 173-186), body under the lock guard. -/
def MutexedQueue.push {T : Type u} (q : MutexedQueue T) (elem : T) :
    Bool × MutexedQueue T :=
  let next_pos := (q.writer + 1) % q.capacity
  if next_pos = q.reader then
    (false, q)
  else
    (true, { q with data := q.data.set q.writer elem, writer := next_pos })

/-- `MutexedQueue::pop` (lines 188-201), body under the lock guard. -/
def MutexedQueue.pop {T : Type u} [Inhabited T] (q : MutexedQueue T) :
    Option T × MutexedQueue T :=
  if q.reader = q.writer then
    (none, q)
  else
    (some (q.data.getD q.reader default),
     { q with reader := (q.reader + 1) % q.capacity })

/-- A call made against a queue: an attempted push of a value, or an attempted
pop. -/
inductive QueueOp (T : Type u) where
  | push (e : T)
  | pop

/-- Run a call sequence on a bounded lock-free queue, recording for every call
its boolean result and, for pops, the value delivered. -/
def LockFreeQueue.run {T : Type u} [Inhabited T] (q : LockFreeQueue T) :
    List (QueueOp T) → List (Bool × Option T) × LockFreeQueue T
  | [] => ([], q)
  | QueueOp.push e :: ops =>
    let r := q.push e
    let rest := r.2.run ops
    ((r.1, none) :: rest.1, rest.2)
  | QueueOp.pop :: ops =>
    let r := q.pop
    let rest := r.2.run ops
    ((r.1.isSome, r.1) :: rest.1, rest.2)

/-- Run a call sequence on a mutexed queue, recording the same observations. -/
def MutexedQueue.run {T : Type u} [Inhabited T] (q : MutexedQueue T) :
    List (QueueOp T) → List (Bool × Option T) × MutexedQueue T
  | [] => ([], q)
  | QueueOp.push e :: ops =>
    let r := q.push e
    let rest := r.2.run ops
    ((r.1, none) :: rest.1, rest.2)
  | QueueOp.pop :: ops =>
    let r := q.pop
    let rest := r.2.run ops
    ((r.1.isSome, r.1) :: rest.1, rest.2)

/-- Field-for-field correspondence between the two bounded queue classes. -/
def MutexedQueue.toLockFree {T : Type u} (q : MutexedQueue T) : LockFreeQueue T :=
  { capacity := q.capacity, reader := q.reader, writer := q.writer,
    data := q.data }

theorem MutexedQueue.push_toLockFree {T : Type u} (q : MutexedQueue T) (e : T) :
    (q.push e).1 = (q.toLockFree.push e).1 ∧
    (q.push e).2.toLockFree = (q.toLockFree.push e).2 := by
  by_cases hc : (q.writer + 1) % q.capacity = q.reader
  · simp only [MutexedQueue.push, LockFreeQueue.push, MutexedQueue.toLockFree,
      if_pos hc]
    exact ⟨trivial, trivial⟩
  · simp only [MutexedQueue.push, LockFreeQueue.push, MutexedQueue.toLockFree,
      if_neg hc]
    exact ⟨trivial, trivial⟩

theorem MutexedQueue.pop_toLockFree {T : Type u} [Inhabited T]
    (q : MutexedQueue T) :
    (q.pop).1 = (q.toLockFree.pop).1 ∧
    (q.pop).2.toLockFree = (q.toLockFree.pop).2 := by
  by_cases hc : q.reader = q.writer
  · simp only [MutexedQueue.pop, LockFreeQueue.pop, MutexedQueue.toLockFree,
      if_pos hc]
    exact ⟨trivial, trivial⟩
  · simp only [MutexedQueue.pop, LockFreeQueue.pop, MutexedQueue.toLockFree,
      if_neg hc]
    exact ⟨trivial, trivial⟩

/-- Simulation: a mutexed queue and its lock-free counterpart produce identical
observations and stay in correspondence over any call sequence. -/
theorem MutexedQueue.run_toLockFree {T : Type u} [Inhabited T] :
    ∀ (ops : List (QueueOp T)) (q : MutexedQueue T),
      (q.run ops).1 = (q.toLockFree.run ops).1 ∧
      (q.run ops).2.toLockFree = (q.toLockFree.run ops).2 := by
  intro ops
  induction ops with
  | nil => intro q; exact ⟨rfl, rfl⟩
  | cons op ops ih =>
    intro q
    cases op with
    | push e =>
      obtain ⟨hb, hs⟩ := MutexedQueue.push_toLockFree q e
      obtain ⟨ihb, ihs⟩ := ih (q.push e).2
      simp only [MutexedQueue.run, LockFreeQueue.run]
      rw [hs] at ihb ihs
      exact ⟨by rw [hb, ihb], ihs⟩
    | pop =>
      obtain ⟨hb, hs⟩ := MutexedQueue.pop_toLockFree q
      obtain ⟨ihb, ihs⟩ := ih (q.pop).2
      simp only [MutexedQueue.run, LockFreeQueue.run]
      rw [hs] at ihb ihs
      exact ⟨by rw [hb, ihb], ihs⟩

/-- C8.  `MutexedQueue<T, size>` and `LockFreeQueue<T, size>`, each viewed as a
sequential state-transition function from its freshly constructed state, are
functionally identical: any sequence of push/pop calls yields the same boolean
results and the same dequeued values in both (same full/empty disambiguation,
same return semantics). -/
theorem mutexedQueue_equiv_lockFreeQueue (T : Type u) [Inhabited T] (size : Nat)
    (ops : List (QueueOp T)) :
    ((MutexedQueue.init T size).run ops).1 =
      ((LockFreeQueue.init T size).run ops).1 := by
  have h := (MutexedQueue.run_toLockFree ops (MutexedQueue.init T size)).1
  rw [h]
  rfl
